import Mathlib

/-!
Verification development for the MSC chatbot (src/main.py): a shallow
embedding of its command interpreter, room-settings store, scheduler,
status aggregator and report renderers, with theorems settling the
specification claims about them.

Times are modelled as integers counting minutes; one day is 1440 minutes.
Python floor semantics (timedelta.days) is modelled with Int.fdiv.
-/

namespace MSCBot

/-! ## String helpers (kernel-friendly models of the Python string operations) -/

/-- Model of Python str.startswith: prefix test over the character lists. -/
def strIsPrefixOf (p s : String) : Bool :=
  p.toList.isPrefixOf s.toList

/-- Character count of a string (Python len over str). -/
def strLength (s : String) : Nat :=
  s.toList.length

/-- Model of Python slicing s[n:]: drop the first n characters. -/
def strDrop (s : String) (n : Nat) : String :=
  ⟨s.toList.drop n⟩

/-- Model of Python str.strip(): remove leading and trailing whitespace. -/
def strTrim (s : String) : String :=
  ⟨((s.toList.dropWhile Char.isWhitespace).reverse.dropWhile Char.isWhitespace).reverse⟩

/-- Helper for pySplit: accumulate the current token (reversed) while walking
the characters. -/
def splitWsAux : List Char → List Char → List String
  | [], acc => if acc.isEmpty then [] else [⟨acc.reverse⟩]
  | c :: rest, acc =>
    if c.isWhitespace then
      if acc.isEmpty then splitWsAux rest []
      else ⟨acc.reverse⟩ :: splitWsAux rest []
    else splitWsAux rest (c :: acc)

/-- Model of Python str.split() with no separator: split on whitespace runs,
dropping empty tokens. -/
def pySplit (s : String) : List String :=
  splitWsAux s.toList []

/-! ## Command table and interpreter (src/main.py, known_commands,
match_command, process_args) -/

/-- The command table of src/main.py, in its source (dict insertion) order. -/
def known_commands : List (String × List String) := [
  ("SHOW_IN_PROGRESS", ["show in-progress"]),
  ("SHOW_PENDING", ["show pending"]),
  ("SHOW_FCP", ["show fcp", "show in fcp"]),
  ("SHOW_ALL", ["show all", "show active"]),
  ("SHOW_SUMMARY", ["show summary", "summarize", "summarise"]),
  ("SHOW_NEWS", ["show news"]),
  ("SHOW_TASKS", ["show tasks"]),
  ("HELP", ["help", "show help"]),
  ("ROOM_SUMMARY_CONTENT", ["set summary content", "set summary mode"]),
  ("ROOM_SUMMARY_ENABLE", ["set enable summary", "set summary enable", "set summary enabled"]),
  ("ROOM_SUMMARY_DISABLE", ["set disable summary", "set summary disable", "set summary disabled"]),
  ("ROOM_SUMMARY_TIME", ["set time summary", "set summary time", "set summary time to"]),
  ("ROOM_SUMMARY_TIME_INFO", ["summary time", "get summary time"]),
  ("ROOM_SHOW_PRIORITY", ["show priority", "priority", "priorities"]),
  ("ROOM_PRIORITY_MSCS", ["set priority mscs", "set priority"])
]

/-- match_command of src/main.py: the first command one of whose variants is a
prefix of the input. -/
def match_command (command : String) : Option String :=
  (known_commands.find? (fun kc => kc.2.any (fun com => strIsPrefixOf com command))).map
    (fun kc => kc.1)

/-- The length the source strips in process_args: its loop overwrites the
variable on every matching variant, so it ends at the LAST matching variant
of the table entry, not the longest one. -/
def process_args_strip_length (variants : List String) (command : String) : Nat :=
  variants.foldl
    (fun acc variation => if strIsPrefixOf variation command then strLength variation else acc) 0

/-- The argument list process_args of src/main.py hands to the handler:
drop the computed strip length, split on whitespace, strip each token. -/
def process_args_arguments (command_id command : String) : List String :=
  let variants := (List.lookup command_id known_commands).getD []
  (pySplit (strDrop command (process_args_strip_length variants command))).map strTrim

/-- The interpreter contract of the spec: match a command, then extract the
arguments the way the source does. -/
def interpret (text : String) : Option (String × List String) :=
  (match_command text).map (fun cid => (cid, process_args_arguments cid text))

/-- Modelled from the spec (for comparison with the source): strip the
LONGEST variant of the matched command that is a prefix of the input. -/
def spec_longest_strip_arguments (command_id command : String) : List String :=
  let variants := (List.lookup command_id known_commands).getD []
  let len := variants.foldl
    (fun acc variation =>
      if strIsPrefixOf variation command then max acc (strLength variation) else acc) 0
  (pySplit (strDrop command len)).map strTrim

/-! ## Settings store (src/main.py, room_specific_data with
get_room_setting, update_room_setting, delete_room_setting) -/

/-- A JSON-ish room-setting value as the source stores them. -/
inductive SettingValue
  | bool (b : Bool)
  | str (s : String)
  | ints (l : List Int)
deriving DecidableEq, Repr

/-- One room's settings dictionary (insertion-ordered, keys unique in use). -/
abbrev RoomDict := List (String × SettingValue)

/-- The full room-id to settings mapping (room_specific_data). -/
abbrev DataMap := List (String × RoomDict)

/-- Python dict assignment d[k] = v: replace in place, else append. -/
def assocSet {α β : Type} [BEq α] : List (α × β) → α → β → List (α × β)
  | [], k, v => [(k, v)]
  | (a, b) :: rest, k, v => if a == k then (k, v) :: rest else (a, b) :: assocSet rest k v

/-- Python dict.update(upd): assign every pair of upd in order. -/
def dictUpdate (d upd : RoomDict) : RoomDict :=
  upd.foldl (fun d p => assocSet d p.1 p.2) d

/-- Python dict.pop(k, None): drop the entry for k if present. -/
def dictPop : RoomDict → String → RoomDict
  | [], _ => []
  | (a, b) :: rest, k => if a == k then rest else (a, b) :: dictPop rest k

/-- room_specific_data[room] = dict when absent, otherwise .update(dict). -/
def dataUpdateRoom : DataMap → String → RoomDict → DataMap
  | [], room, upd => [(room, upd)]
  | (a, d) :: rest, room, upd =>
    if a == room then (a, dictUpdate d upd) :: rest
    else (a, d) :: dataUpdateRoom rest room upd

/-- dataPopKey data room key: drop key from the dictionary of room. -/
def dataPopKey : DataMap → String → String → DataMap
  | [], _, _ => []
  | (a, d) :: rest, room, key =>
    if a == room then (a, dictPop d key) :: rest
    else (a, d) :: dataPopKey rest room key

/-- get_room_setting of src/main.py: the value under the key of the room,
None when the room or the key is missing. -/
def get_room_setting (data : DataMap) (room_id setting_key : String) : Option SettingValue :=
  (List.lookup room_id data).bind (fun d => List.lookup setting_key d)

/-- The persistent state the handlers touch: the in-memory mapping, the
on-disk snapshot file and its .bak sibling (none = file absent). The model
takes the disk write to succeed; the source swallows a write failure and
keeps memory authoritative, which no claim here depends on. -/
structure World where
  mem : DataMap
  disk : Option DataMap
  bak : Option DataMap
deriving DecidableEq, Repr

/-- The persistence step shared by update_room_setting and
delete_room_setting: rename the existing snapshot to .bak, then write the
full mapping. -/
def persist (w : World) (mem : DataMap) : World :=
  { mem := mem
    bak := if w.disk.isSome then w.disk else w.bak
    disk := some mem }

/-- update_room_setting of src/main.py. -/
def update_room_setting (room_id : String) (setting_dict : RoomDict) (w : World) : World :=
  persist w (dataUpdateRoom w.mem room_id setting_dict)

/-- delete_room_setting of src/main.py: a missing room raises KeyError,
which the source catches and returns WITHOUT persisting. -/
def delete_room_setting (room_id setting_key : String) (w : World) : World :=
  if w.mem.any (fun p => p.1 == room_id) then persist w (dataPopKey w.mem room_id setting_key)
  else w

/-- Python truthiness of a stored setting (None, empty string and empty
list are falsy). -/
def truthy : Option SettingValue → Bool
  | none => false
  | some (.bool b) => b
  | some (.str s) => !s.isEmpty
  | some (.ints l) => !l.isEmpty

/-! ## Scheduler (the schedule library as the source uses it: daily jobs
tagged with a room id) -/

/-- The armed triggers: (tag, "HH:MM") pairs in arming order. -/
abbrev Schedule := List (String × String)

/-- schedule.clear(tag): drop every job carrying the tag. -/
def schedule_clear (tag : String) (s : Schedule) : Schedule :=
  s.filter (fun p => !(p.1 == tag))

/-- schedule.every().day.at(t).do(...).tag(tag): arm one new daily job. -/
def schedule_add (tag time_str : String) (s : Schedule) : Schedule :=
  s ++ [(tag, time_str)]

/-! ## Room command handlers (src/main.py, room_*) -/

/-- A handler outcome: the settings world afterwards and the reply text. -/
structure CmdResult where
  world : World
  response : String
deriving DecidableEq, Repr

/-- Python str(int). -/
def pyIntStr (n : Int) : String := toString n

/-- Python str of a list of ints: "[1, 2]". -/
def pyIntListStr (l : List Int) : String :=
  "[" ++ String.intercalate ", " (l.map pyIntStr) ++ "]"

/-- Python str of a stored setting or None, as %s renders it. -/
def pySettingStr : Option SettingValue → String
  | none => "None"
  | some (.bool b) => if b then "True" else "False"
  | some (.str s) => s
  | some (.ints l) => pyIntListStr l

/-- Remove every comma of a token (num_str.replace in room_priority_mscs). -/
def stripCommas (s : String) : String :=
  ⟨s.toList.filter (fun c => !(c == ','))⟩

/-- digitsRest cs: cs is digits with single underscores between digits
(the tail of a Python int literal body). -/
def digitsRest : List Char → Bool
  | [] => true
  | '_' :: rest =>
    match rest with
    | [] => false
    | c :: rest2 => c.isDigit && digitsRest rest2
  | c :: rest => c.isDigit && digitsRest rest

/-- pyDigits cs: cs is a nonempty Python digit sequence. -/
def pyDigits : List Char → Bool
  | [] => false
  | c :: rest => c.isDigit && digitsRest rest

/-- Numeric value of a digit sequence, skipping underscores. -/
def digitsVal (cs : List Char) : Int :=
  cs.foldl (fun acc c => if c == '_' then acc else acc * 10 + Int.ofNat (c.toNat - 48)) 0

/-- Model of Python int(str): optional surrounding whitespace, optional
sign, then digits (with underscores between digits); None when int raises. -/
def python_int (s : String) : Option Int :=
  match (strTrim s).toList with
  | '+' :: rest => if pyDigits rest then some (digitsVal rest) else none
  | '-' :: rest => if pyDigits rest then some (-(digitsVal rest)) else none
  | cs => if pyDigits cs then some (digitsVal cs) else none

/-- The parse loop of room_priority_mscs: strip commas from each token and
convert it; the first failing token aborts with the reported message. -/
def parse_msc_numbers : List String → Except String (List Int)
  | [] => .ok []
  | s :: rest =>
    let num_str := stripCommas s
    match python_int num_str with
    | none =>
        .error ("Unable to parse " ++ num_str
          ++ " as an MSC number. Make sure it is a valid integer.")
    | some n => (parse_msc_numbers rest).map (fun l => n :: l)

/-- room_priority_mscs of src/main.py. -/
def room_priority_mscs (room_id : String) (arguments : List String) (w : World) : CmdResult :=
  match arguments with
  | [] => ⟨w, "Unknown MSC numbers. Usage: set priority 123, 456, 555, 12"⟩
  | a0 :: _ =>
    if a0 == "clear" then
      let priority := get_room_setting w.mem room_id "priority_mscs"
      ⟨delete_room_setting room_id "priority_mscs" w,
        "Priority MSCs cleared. Was: " ++ pySettingStr priority ++ "."⟩
    else
      match parse_msc_numbers arguments with
      | .error msg => ⟨w, msg⟩
      | .ok numbers =>
        ⟨update_room_setting room_id [("priority_mscs", .ints numbers)] w,
          "Priority MSCs set: " ++ pyIntListStr numbers⟩

/-- The allowed summary content modes of room_summary_content. -/
def summary_content_allowed : List String := ["all", "pending", "fcp", "in-progress"]

/-- The usage reply of room_summary_content. -/
def summary_content_usage : String :=
  "\nInvalid or unknown summary content option.\n        \nUsage: `set summary content: [all, pending, fcp, in-progress]`"

/-- room_summary_content of src/main.py. -/
def room_summary_content (room_id : String) (arguments : List String) (w : World) : CmdResult :=
  match arguments with
  | [] => ⟨w, summary_content_usage⟩
  | a :: _ =>
    if summary_content_allowed.contains a then
      ⟨update_room_setting room_id [("summary_content", .str a)] w,
        "Summary content updated successfully to '" ++ a ++ "'."⟩
    else ⟨w, summary_content_usage⟩

/-- A scheduling handler outcome: settings world, scheduler and reply. -/
structure SchedResult where
  world : World
  sched : Schedule
  response : String
deriving DecidableEq, Repr

/-- Zero padding of an hour or minute field ("0%d" below ten). -/
def pad2 (n : Nat) : String :=
  if n < 10 then "0" ++ toString n else toString n

/-- The usage reply of room_summary_time. -/
def summary_time_usage : String :=
  "\nInvalid or unknown summary time option.\n\nUsage: `set summary time 07:00` or `set summary time 4pm`"

/-- room_summary_time of src/main.py. The free-form time parser
(parsedatetime) is an external capability, passed in as a function giving
the parsed hour and minute, or none when parsing raises. -/
def room_summary_time (parse : String → Option (Nat × Nat)) (room_id : String)
    (arguments : List String) (w : World) (sched : Schedule) : SchedResult :=
  match arguments with
  | [] => ⟨w, sched, summary_time_usage⟩
  | a :: _ =>
    match parse a with
    | none => ⟨w, sched, "Unknown time parameter '" ++ a ++ "'."⟩
    | some (h, m) =>
      let time_24hr := pad2 h ++ ":" ++ pad2 m
      let w2 := update_room_setting room_id [("summary_time", .str time_24hr)] w
      let sched2 := schedule_add room_id time_24hr (schedule_clear room_id sched)
      ⟨w2, sched2, "Summary time now set to " ++ time_24hr ++ "."⟩

/-! ## Startup scheduling (src/main.py, main and set_up_default_summaries) -/

/-- set_up_default_summaries of src/main.py: arm every room that has no
custom summary time and is not disabled, at the process-wide default time. -/
def set_up_default_summaries (default_time : String) (data : DataMap) (sched : Schedule) :
    Schedule :=
  data.foldl
    (fun sch rp =>
      if truthy (get_room_setting data rp.1 "summary_time") then sch
      else if get_room_setting data rp.1 "summary_enabled" == some (SettingValue.bool false) then
        sch
      else schedule_add rp.1 default_time sch)
    sched

/-- The startup scheduling pass of main() in src/main.py: rooms that are not
disabled and DO have a custom summary time are armed first (the source arms
them at the config default time, not their custom time), then
set_up_default_summaries arms the remaining rooms at the default time. -/
def startup_schedule (default_time : String) (data : DataMap) : Schedule :=
  let s1 := data.foldl
    (fun sch rp =>
      if get_room_setting data rp.1 "summary_enabled" == some (SettingValue.bool false) then sch
      else if truthy (get_room_setting data rp.1 "summary_time") then
        schedule_add rp.1 default_time sch
      else sch)
    []
  set_up_default_summaries default_time data s1

/-! ## Tracker data model (issues, comments, label events) -/

/-- Minutes in a day; timestamps are integers counting minutes. -/
def minutes_per_day : Int := 1440

/-- A tracker comment: author account id and creation timestamp. -/
structure Comment where
  user_id : Int
  created_at : Int
deriving DecidableEq, Repr

/-- A label-change timeline event (e.event is "labeled" for additions). -/
structure LabelEvent where
  event : String
  label : String
  created_at : Int
deriving DecidableEq, Repr

/-- A tracked issue snapshot: identifier, title, URL, label names, comments
(oldest first, as the tracker returns them) and its label-event timeline. -/
structure Issue where
  number : Int
  title : String
  html_url : String
  labels : List String
  comments : List Comment
  events : List LabelEvent
deriving DecidableEq, Repr

/-- A review-feed record as the source consumes it: the linked issue
number, the disposition and the (reviewer login, has-approved) pairs. -/
structure FcpInfo where
  issue_number : Int
  disposition : String
  reviews : List (String × Bool)
deriving DecidableEq, Repr

/-- A unified status entry as get_mscs builds them. -/
structure MscEntry where
  issue : Issue
  labels : List String
  fcp : Option FcpInfo
deriving DecidableEq, Repr

/-! ## Status aggregation (src/main.py, get_mscs) -/

/-- Python truthiness of the optional room id argument of get_mscs. -/
def room_id_truthy : Option String → Bool
  | none => false
  | some s => !s.isEmpty

/-- The priority filter test of get_mscs: skip the issue when the stored
priority list is truthy and does not contain its number. -/
def priority_excludes (v : Option SettingValue) (n : Int) : Bool :=
  match v with
  | some (.ints l) => !l.isEmpty && !l.contains n
  | _ => false

/-- get_mscs of src/main.py: filter the fetched issues by the priority
setting of the room, build entries with no review record, then attach the
matching review record to every entry whose issue carries the
proposed-final-comment-period label. -/
def get_mscs (room_id : Option String) (mem : DataMap) (repo_issues : List Issue)
    (fcp_info : List FcpInfo) : List MscEntry :=
  let kept := repo_issues.filter
    (fun issue =>
      if room_id_truthy room_id then
        !(priority_excludes (get_room_setting mem (room_id.getD "") "priority_mscs")
          issue.number)
      else true)
  let entries := kept.map (fun issue => (⟨issue, issue.labels, none⟩ : MscEntry))
  entries.map
    (fun e =>
      if e.labels.contains "proposed-final-comment-period" then
        { e with
          fcp := fcp_info.foldl
            (fun acc f => if e.issue.number == f.issue_number then some f else acc) e.fcp }
      else e)

/-! ## FCP report (src/main.py, reply_fcp_mscs) -/

/-- The fixed bot account id whose newest comment marks the FCP start. -/
def mscbot_user_id : Int := 40832866

/-- The FCP start inference of reply_fcp_mscs: walk the comments newest
first, take the first one by the bot account, subtract one day. None when
no comment matches (the source then leaves its local variable unbound). -/
def find_fcp_start (comments : List Comment) : Option Int :=
  (comments.reverse.find? (fun c => c.user_id == mscbot_user_id)).map
    (fun c => c.created_at - minutes_per_day)

/-- The failure reply_fcp_mscs raises when the loop never bound its local
time variable (Python UnboundLocalError). -/
def unbound_time_error : String :=
  "UnboundLocalError: local variable time referenced before assignment"

/-- One rendered FCP line, given the bound start time. Python
timedelta.days floors, hence Int.fdiv. -/
def fcp_line (today fcp_length : Int) (m : MscEntry) (time : Int) : String :=
  let remaining_days := fcp_length - Int.fdiv (today - time) minutes_per_day
  let line := "[[MSC" ++ pyIntStr m.issue.number ++ "](" ++ m.issue.html_url ++ ")] - "
    ++ m.issue.title
  if remaining_days > 0 then
    line ++ " - Ends in **" ++ pyIntStr remaining_days ++ " "
      ++ (if remaining_days == 1 then "day" else "days") ++ "**"
  else line ++ " - Ends **today**"

/-- The loop of reply_fcp_mscs: the local time variable persists across
iterations (modelled as the Option Int state); reading it unbound raises. -/
def fcp_lines (today fcp_length : Int) : Option Int → List MscEntry → Except String (List String)
  | _, [] => .ok []
  | t, m :: rest =>
    if m.labels.contains "final-comment-period" then
      let t2 := match find_fcp_start m.issue.comments with
        | some x => some x
        | none => t
      match t2 with
      | none => .error unbound_time_error
      | some time =>
        (fcp_lines today fcp_length (some time) rest).map
          (fun ls => fcp_line today fcp_length m time :: ls)
    else fcp_lines today fcp_length t rest

/-- reply_fcp_mscs of src/main.py (today and the configured FCP length in
days are the ambient clock and config). -/
def reply_fcp_mscs (today fcp_length : Int) (mscs : List MscEntry) : Except String String :=
  (fcp_lines today fcp_length none mscs).map
    (fun fcps =>
      "\n\n**In Final Comment Period**\n\n"
        ++ (if fcps.length > 0 then String.intercalate "\n\n" fcps else "No MSCs in FCP."))

/-! ## News digest rendering (src/main.py, reply_news) and label events
(get_label_events) -/

/-- The title-stripping step of reply_news: drop an "MSC<num>" or
"MSC <num>" head (the source cuts len("MSC"+num) characters in BOTH
branches), then a leading colon, then surrounding whitespace. -/
def news_display_title (number : Int) (title : String) : String :=
  let num := pyIntStr number
  let title1 :=
    if strIsPrefixOf ("MSC" ++ num) title then strDrop title (strLength ("MSC" ++ num))
    else if strIsPrefixOf ("MSC " ++ num) title then strDrop title (strLength ("MSC" ++ num))
    else title
  let title2 := if strIsPrefixOf ":" title1 then strDrop title1 1 else title1
  strTrim title2

/-- One rendered news link for an issue. -/
def news_link (msc : Issue) : String :=
  "[[MSC " ++ pyIntStr msc.number ++ "]: " ++ news_display_title msc.number msc.title
    ++ "](" ++ msc.html_url ++ ")"

/-- The per-issue state get_label_events retains: the issue, the calendar
date of the event (its day number) and the label name. -/
structure IssueState where
  issue : Issue
  date : Int
  label : String
deriving DecidableEq, Repr

/-- Python date() of a timestamp: its day number. -/
def dateOf (t : Int) : Int := Int.fdiv t minutes_per_day

/-- One iteration of the event loop of get_label_events: skip non-labeled
events and unwatched labels, add the label to the (unused) seen set, skip
events outside [date_from, date_to), and otherwise overwrite the per-issue
state under the issue number. -/
def label_event_step (watched : List String) (date_from date_to : Int) (i : Issue)
    (acc : List (Int × IssueState) × List String) (e : LabelEvent) :
    List (Int × IssueState) × List String :=
  if !(e.event == "labeled") then acc
  else if !(watched.contains e.label) then acc
  else
    let labels := if acc.2.contains e.label then acc.2 else acc.2 ++ [e.label]
    if e.created_at < date_from || date_to ≤ e.created_at then (acc.1, labels)
    else (assocSet acc.1 i.number ⟨i, dateOf e.created_at, e.label⟩, labels)

/-- The body of the event loop of get_label_events for one issue: walk its
timeline with label_event_step, starting from the states so far and an
empty seen-label set (the set is dropped at the end, as in the source). -/
def process_issue_events (watched : List String) (date_from date_to : Int) (i : Issue)
    (states : List (Int × IssueState)) : List (Int × IssueState) :=
  (i.events.foldl (label_event_step watched date_from date_to i) (states, [])).1

/-- get_label_events of src/main.py (watched is config github.labels). -/
def get_label_events (watched : List String) (issues : List Issue)
    (date_from date_to : Int) : List (Int × IssueState) :=
  issues.foldl (fun st i => process_issue_events watched date_from date_to i st) []

/-- Specification-side helper naming what "the most recent matching event
wins" means for a timeline walked front to back: the last event satisfying
p, as a fold that overwrites on every match. -/
def lastMatch (p : LabelEvent → Bool) (evs : List LabelEvent) : Option LabelEvent :=
  evs.foldl (fun acc e => if p e then some e else acc) none

/-- The in-window watched-event test of get_label_events, written out:
labeled, watched, and date_from ≤ t < date_to. -/
def inWindow (watched : List String) (date_from date_to : Int) (e : LabelEvent) : Bool :=
  e.event == "labeled" && watched.contains e.label
    && decide (date_from ≤ e.created_at) && decide (e.created_at < date_to)

/-! ## Theorems settling the claims -/

/-- C1: the source does NOT strip the longest matching variant: its loop
keeps the LAST matching variant of the table entry. On the input
"set priority mscs 123" both variants of ROOM_PRIORITY_MSCS are prefixes;
the table lists the longer one first, so the source strips the shorter
"set priority" and passes ["mscs", "123"], while stripping the longest
variant (as the claim states) would pass ["123"]. The claimed behavior on
"show pending extra" does hold, since that command has one variant. -/
theorem C1_last_not_longest_variant_stripped :
    interpret "set priority mscs 123" = some ("ROOM_PRIORITY_MSCS", ["mscs", "123"])
    ∧ strIsPrefixOf "set priority mscs" "set priority mscs 123" = true
    ∧ strLength "set priority mscs" > strLength "set priority"
    ∧ spec_longest_strip_arguments "ROOM_PRIORITY_MSCS" "set priority mscs 123" = ["123"]
    ∧ interpret "show pending extra" = some ("SHOW_PENDING", ["extra"]) :=
  ⟨rfl, rfl, by decide, rfl, rfl⟩

/-- C2: at startup the source arms a room that has a custom summary time at
the process-wide DEFAULT time, not at the recorded custom time: with default
time 12:00, room !a stores summary time 09:00 yet its one trigger fires at
12:00 (room !b, with no custom time, is correctly armed at the default). -/
theorem C2_custom_time_room_armed_at_default :
    startup_schedule "12:00"
        [("!a", [("summary_time", SettingValue.str "09:00")]), ("!b", [])]
      = [("!a", "12:00"), ("!b", "12:00")]
    ∧ get_room_setting [("!a", [("summary_time", SettingValue.str "09:00")]), ("!b", [])]
        "!a" "summary_time" = some (SettingValue.str "09:00") :=
  ⟨rfl, rfl⟩

/-- C3 counterexample: in the concrete scenario of the claim (newest bot
comment exactly 2 days before today, configured FCP length 7) the rendered
line ends in "Ends in **4 days**", not the claimed "Ends in **5 days**":
the inferred start is 3 whole days ago, and 7 - 3 = 4. -/
theorem C3_counterexample_four_not_five_days :
    reply_fcp_mscs 2880 7
        [⟨⟨42, "Title", "url", ["final-comment-period"], [⟨40832866, 0⟩], []⟩,
          ["final-comment-period"], none⟩]
      = .ok "\n\n**In Final Comment Period**\n\n[[MSC42](url)] - Title - Ends in **4 days**"
    ∧ ("\n\n**In Final Comment Period**\n\n[[MSC42](url)] - Title - Ends in **4 days**"
        ≠ "\n\n**In Final Comment Period**\n\n[[MSC42](url)] - Title - Ends in **5 days**") :=
  ⟨rfl, by decide⟩

/-- C4 counterexample: an issue carrying the final-comment-period label
whose comments contain none by the bot account makes the whole FCP report
fail (the source reads its never-assigned local time variable, raising
UnboundLocalError), instead of rendering the line without a remaining-days
clause. -/
theorem C4_counterexample_report_fails :
    reply_fcp_mscs 0 7
        [⟨⟨1, "T", "u", ["final-comment-period"], [⟨5, 0⟩], []⟩,
          ["final-comment-period"], none⟩]
      = .error unbound_time_error :=
  rfl

/-- C3 (amended): the remaining-days formula of the claim holds — the FCP
start is the newest bot comment time minus one day (find_fcp_start) and the
line shows the configured length minus the whole days elapsed since that
start — but in the concrete scenario of the claim (newest bot comment 2
days ago, length 7) that formula, and the code, render "Ends in **4 days**"
rather than the claimed "Ends in **5 days**". -/
theorem C3_amended_remaining_days (today len start n : Int) (ttl url : String)
    (comments : List Comment)
    (hfind : find_fcp_start comments = some start)
    (hpos : 0 < len - Int.fdiv (today - start) minutes_per_day)
    (hne : ¬(len - Int.fdiv (today - start) minutes_per_day = 1)) :
    reply_fcp_mscs today len
        [⟨⟨n, ttl, url, ["final-comment-period"], comments, []⟩, ["final-comment-period"], none⟩]
      = .ok ("\n\n**In Final Comment Period**\n\n[[MSC" ++ pyIntStr n ++ "](" ++ url ++ ")] - "
          ++ ttl ++ " - Ends in **" ++ pyIntStr (len - Int.fdiv (today - start) minutes_per_day)
          ++ " days**") := by
  have hb : (len - Int.fdiv (today - start) minutes_per_day == 1) = false := by
    simp [hne]
  simp only [reply_fcp_mscs, fcp_lines, hfind]
  simp only [fcp_line, List.contains_cons]
  simp [hpos, hb, Except.map, String.intercalate, String.intercalate.go, String.append_assoc]
  rw [show ("\n\n**In Final Comment Period**\n\n[[MSC" : String)
      = "\n\n**In Final Comment Period**\n\n" ++ "[[MSC" from rfl, String.append_assoc]

/-- C3 witness: the amended scenario — bot comment at time 0, today two days
later, FCP length 7 — renders "Ends in **4 days**". -/
theorem C3_remaining_days_witness :
    reply_fcp_mscs 2880 7
        [⟨⟨11, "Foo", "u", ["final-comment-period"], [⟨40832866, 0⟩], []⟩,
          ["final-comment-period"], none⟩]
      = .ok "\n\n**In Final Comment Period**\n\n[[MSC11](u)] - Foo - Ends in **4 days**" := by
  have h := C3_amended_remaining_days 2880 7 (-1440) 11 "Foo" "u" [⟨40832866, 0⟩]
    (by decide) (by decide) (by decide)
  exact h.trans (by rfl)

/-- C4 (amended): when the first issue of the report that carries the
final-comment-period label has no comment by the bot account, the whole FCP
report fails with an unbound-variable error (the source never assigns its
local time variable before reading it), instead of rendering that issue
without a remaining-days clause. -/
theorem C4_report_fails_without_bot_comment (today len : Int) (pre : List MscEntry)
    (m : MscEntry) (post : List MscEntry)
    (hpre : ∀ m2 ∈ pre, m2.labels.contains "final-comment-period" = false)
    (hm : m.labels.contains "final-comment-period" = true)
    (hc : ∀ c ∈ m.issue.comments, ¬(c.user_id = mscbot_user_id)) :
    reply_fcp_mscs today len (pre ++ m :: post) = .error unbound_time_error := by
  have hfind : find_fcp_start m.issue.comments = none := by
    unfold find_fcp_start
    rw [List.find?_eq_none.mpr]
    · rfl
    · intro c hcmem
      have := hc c (List.mem_reverse.mp hcmem)
      simp [this]
  have hlines : fcp_lines today len none (pre ++ m :: post) = .error unbound_time_error := by
    induction pre with
    | nil =>
      simp only [List.nil_append, fcp_lines, hm, hfind, if_true]
    | cons p rest ih =>
      have hp := hpre p (List.mem_cons_self p rest)
      simp only [List.cons_append, fcp_lines, hp, Bool.false_eq_true, if_false]
      exact ih (fun m2 hm2 => hpre m2 (List.mem_cons_of_mem p hm2))
  simp [reply_fcp_mscs, hlines, Except.map]

/-- C4 witness: a report whose second entry is in FCP with no bot comment
(and whose first entry is not in FCP) fails with the unbound-variable
error. -/
theorem C4_failure_witness :
    reply_fcp_mscs 5 3
        [⟨⟨2, "A", "ua", ["proposal-in-review"], [], []⟩, ["proposal-in-review"], none⟩,
          ⟨⟨3, "B", "ub", ["final-comment-period"], [⟨9, 100⟩], []⟩,
            ["final-comment-period"], none⟩]
      = .error unbound_time_error :=
  C4_report_fails_without_bot_comment 5 3
    [⟨⟨2, "A", "ua", ["proposal-in-review"], [], []⟩, ["proposal-in-review"], none⟩]
    ⟨⟨3, "B", "ub", ["final-comment-period"], [⟨9, 100⟩], []⟩, ["final-comment-period"], none⟩
    [] (by decide) (by decide) (by decide)

/-- Cancelling the triggers of a tag leaves no trigger with that tag. -/
lemma filter_clear_self (room : String) (s : Schedule) :
    (schedule_clear room s).filter (fun p => p.1 == room) = [] := by
  induction s with
  | nil => rfl
  | cons a s ih =>
    by_cases h : a.1 == room
    · simp [schedule_clear, h] at ih ⊢
    · simp only [schedule_clear, h, List.filter_cons] at ih ⊢
      simp [h, ih]

/-- Counting form of filter_clear_self. -/
lemma countP_clear_self (room : String) (s : Schedule) :
    (schedule_clear room s).countP (fun p => p.1 == room) = 0 := by
  rw [List.countP_eq_length_filter, filter_clear_self]
  rfl

/-- Cancelling one tag never increases the trigger count of any tag. -/
lemma countP_clear_le (room r : String) (s : Schedule) :
    (schedule_clear room s).countP (fun p => p.1 == r) ≤ s.countP (fun p => p.1 == r) :=
  (List.filter_sublist s).countP_le _

/-- One room_summary_time call preserves the at-most-one-trigger-per-tag
bound for every tag. -/
lemma room_summary_time_counts (parse : String → Option (Nat × Nat)) (room : String)
    (args : List String) (w0 : World) (s0 : Schedule) (r : String)
    (h : s0.countP (fun p => p.1 == r) ≤ 1) :
    (room_summary_time parse room args w0 s0).sched.countP (fun p => p.1 == r) ≤ 1 := by
  cases args with
  | nil => simpa [room_summary_time] using h
  | cons a rest =>
    cases hp : parse a with
    | none => simpa [room_summary_time, hp] using h
    | some hm =>
      obtain ⟨hh, mm⟩ := hm
      simp only [room_summary_time, hp, schedule_add]
      rw [List.countP_append]
      by_cases hr : room = r
      · subst hr
        rw [countP_clear_self]
        simp [List.countP_cons]
      · have h1 := countP_clear_le room r s0
        have h2 : List.countP (fun p => p.1 == r)
            [(room, pad2 hh ++ ":" ++ pad2 mm)] = 0 := by
          simp [List.countP_cons, hr]
        rw [h2]
        omega

/-- C5: after setting the summary time of a room to 9am and then to 10am,
exactly one trigger carries that room tag and it fires at 10:00, whatever
triggers existed before (first conjunct); a call keeps every tag at no more
than one trigger (second conjunct); and at the intermediate point, right
after the cancel and before the re-arm, the room has no trigger at all
(third conjunct). -/
theorem C5_reset_single_trigger (parse : String → Option (Nat × Nat)) (room : String)
    (w : World) (sched : Schedule)
    (h9 : parse "9am" = some (9, 0)) (h10 : parse "10am" = some (10, 0)) :
    ((room_summary_time parse room ["10am"]
        (room_summary_time parse room ["9am"] w sched).world
        (room_summary_time parse room ["9am"] w sched).sched).sched.filter
      (fun p => p.1 == room)) = [(room, "10:00")]
    ∧ (∀ (args : List String) (w0 : World) (s0 : Schedule) (r : String),
        s0.countP (fun p => p.1 == r) ≤ 1 →
        (room_summary_time parse room args w0 s0).sched.countP (fun p => p.1 == r) ≤ 1)
    ∧ (∀ s0 : Schedule, (schedule_clear room s0).countP (fun p => p.1 == room) = 0) := by
  refine ⟨?_, fun args w0 s0 r h => room_summary_time_counts parse room args w0 s0 r h,
    fun s0 => countP_clear_self room s0⟩
  simp only [room_summary_time, h9, h10]
  simp only [schedule_add]
  rw [List.filter_append]
  rw [show schedule_clear room (schedule_clear room sched ++ [(room, pad2 9 ++ ":" ++ pad2 0)])
      = schedule_clear room (schedule_clear room sched) from by
    simp [schedule_clear, List.filter_append]]
  rw [filter_clear_self, List.nil_append]
  show List.filter _ [(room, "10:00")] = _
  simp

/-- A concrete time parser standing in for the parsedatetime capability in
the scheduler witnesses. -/
def parse_witness_fn : String → Option (Nat × Nat) := fun s =>
  if s == "9am" then some (9, 0) else if s == "10am" then some (10, 0) else none

/-- C5 witness: from an empty scheduler and empty settings, setting 9am then
10am for room !r leaves exactly the trigger ("!r", "10:00"). -/
theorem C5_reset_witness :
    ((room_summary_time parse_witness_fn "!r" ["10am"]
        (room_summary_time parse_witness_fn "!r" ["9am"] ⟨[], none, none⟩ []).world
        (room_summary_time parse_witness_fn "!r" ["9am"] ⟨[], none, none⟩ []).sched).sched.filter
      (fun p => p.1 == "!r")) = [("!r", "10:00")] :=
  (C5_reset_single_trigger parse_witness_fn "!r" ⟨[], none, none⟩ [] (by decide) (by decide)).1

/-- Looking up the key just assigned in a dictionary yields its new value. -/
lemma lookup_assocSet_self {α β : Type} [BEq α] [LawfulBEq α] (d : List (α × β)) (k : α)
    (v : β) :
    List.lookup k (assocSet d k v) = some v := by
  induction d with
  | nil => simp [assocSet, List.lookup]
  | cons p rest ih =>
    obtain ⟨a, b⟩ := p
    by_cases h : a = k
    · subst h
      simp [assocSet, List.lookup]
    · have hb : (a == k) = false := beq_eq_false_iff_ne.mpr h
      have h2 : (k == a) = false := beq_eq_false_iff_ne.mpr (fun e => h e.symm)
      simp [assocSet, hb, List.lookup, h2, ih]

/-- lookup_assocSet_self for a key other than the assigned one. -/
lemma lookup_assocSet_ne {α β : Type} [BEq α] [LawfulBEq α] (d : List (α × β)) (k : α) (v : β)
    (k2 : α) (h : k2 ≠ k) :
    List.lookup k2 (assocSet d k v) = List.lookup k2 d := by
  have hb : (k2 == k) = false := beq_eq_false_iff_ne.mpr h
  induction d with
  | nil => simp [assocSet, List.lookup, hb]
  | cons p rest ih =>
    obtain ⟨a, b⟩ := p
    by_cases ha : a = k
    · subst ha
      simp [assocSet, List.lookup, hb]
    · have hab : (a == k) = false := beq_eq_false_iff_ne.mpr ha
      simp [assocSet, hab, List.lookup, ih]

/-- Looking up the room just updated in the data map yields its new
dictionary. -/
lemma lookup_dataUpdateRoom_self (m : DataMap) (room : String) (upd : RoomDict) :
    List.lookup room (dataUpdateRoom m room upd)
      = some (match List.lookup room m with | some d => dictUpdate d upd | none => upd) := by
  induction m with
  | nil => simp [dataUpdateRoom, List.lookup]
  | cons p rest ih =>
    obtain ⟨a, d⟩ := p
    by_cases h : a = room
    · subst h
      simp [dataUpdateRoom, List.lookup]
    · have hb : (a == room) = false := beq_eq_false_iff_ne.mpr h
      have h2 : (room == a) = false := beq_eq_false_iff_ne.mpr (fun e => h e.symm)
      simp [dataUpdateRoom, hb, List.lookup, h2, ih]

/-- After a single-key update_room_setting, reading that key of that room
gives the written value. -/
lemma get_update_self (w : World) (room k : String) (v : SettingValue) :
    get_room_setting (update_room_setting room [(k, v)] w).mem room k = some v := by
  show get_room_setting (dataUpdateRoom w.mem room [(k, v)]) room k = some v
  rw [get_room_setting, lookup_dataUpdateRoom_self]
  cases hd : List.lookup room w.mem with
  | none => simp [List.lookup]
  | some d =>
    show List.lookup k (dictUpdate d [(k, v)]) = some v
    show List.lookup k (assocSet d k v) = some v
    exact lookup_assocSet_self d k v

/-- A token whose comma-stripped form int() rejects makes the parse loop of
room_priority_mscs fail, with the message naming the first such token. -/
lemma parse_error_of_bad (args : List String)
    (h : ∃ t ∈ args, python_int (stripCommas t) = none) :
    ∃ t0 ∈ args, python_int (stripCommas t0) = none ∧ parse_msc_numbers args
      = .error ("Unable to parse " ++ stripCommas t0
          ++ " as an MSC number. Make sure it is a valid integer.") := by
  induction args with
  | nil => simp at h
  | cons s rest ih =>
    cases hs : python_int (stripCommas s) with
    | none =>
      exact ⟨s, List.mem_cons_self s rest, hs, by simp [parse_msc_numbers, hs]⟩
    | some n =>
      obtain ⟨t, ht, htbad⟩ := h
      rcases List.mem_cons.mp ht with rfl | htr
      · rw [hs] at htbad
        exact absurd htbad (by simp)
      · obtain ⟨t0, ht0, hbad0, herr⟩ := ih ⟨t, htr, htbad⟩
        refine ⟨t0, List.mem_cons_of_mem s ht0, hbad0, ?_⟩
        simp [parse_msc_numbers, hs, herr, Except.map]

/-- C7: the set-priority pipeline. The interpreter passes the raw tokens of
"set priority 123, 456"; the handler comma-strips and integer-parses them,
stores [123, 456] under the room's priority setting in memory, and writes
the mapping to disk (conjuncts 3 to 6). When any token's comma-stripped
form is not an integer (and the invocation is not the clear subcommand),
the handler leaves the whole settings world untouched, memory and disk, and
replies with the parse-failure message naming the first such comma-stripped
token (conjuncts 1 and 2). -/
theorem C7_priority_parse_and_store (room : String) (w : World) (args : List String)
    (tok : String) (hmem : tok ∈ args) (hbad : python_int (stripCommas tok) = none)
    (hclear : args.head? ≠ some "clear") :
    (room_priority_mscs room args w).world = w
    ∧ (∃ t0 ∈ args, python_int (stripCommas t0) = none
        ∧ (room_priority_mscs room args w).response
          = "Unable to parse " ++ stripCommas t0
            ++ " as an MSC number. Make sure it is a valid integer.")
    ∧ interpret "set priority 123, 456" = some ("ROOM_PRIORITY_MSCS", ["123,", "456"])
    ∧ (room_priority_mscs room ["123,", "456"] w)
      = ⟨update_room_setting room [("priority_mscs", SettingValue.ints [123, 456])] w,
          "Priority MSCs set: [123, 456]"⟩
    ∧ get_room_setting (room_priority_mscs room ["123,", "456"] w).world.mem
        room "priority_mscs" = some (SettingValue.ints [123, 456])
    ∧ (room_priority_mscs room ["123,", "456"] w).world.disk
      = some (room_priority_mscs room ["123,", "456"] w).world.mem := by
  obtain ⟨t0, ht0, hbad0, herr⟩ := parse_error_of_bad args ⟨tok, hmem, hbad⟩
  refine ⟨?_, ?_, rfl, rfl, get_update_self w room "priority_mscs" (.ints [123, 456]), rfl⟩
  · cases args with
    | nil => simp at hmem
    | cons a0 rest =>
      have ha0 : (a0 == "clear") = false := by
        simp only [List.head?] at hclear
        simp only [beq_eq_false_iff_ne]
        intro e
        exact hclear (by rw [e])
      simp [room_priority_mscs, ha0, herr]
  · cases args with
    | nil => simp at hmem
    | cons a0 rest =>
      have ha0 : (a0 == "clear") = false := by
        simp only [List.head?] at hclear
        simp only [beq_eq_false_iff_ne]
        intro e
        exact hclear (by rw [e])
      exact ⟨t0, ht0, hbad0, by simp [room_priority_mscs, ha0, herr]⟩

/-- C7 witness: the token abc is rejected and the settings world (initially
empty, no disk file) is returned unchanged. -/
theorem C7_priority_parse_witness :
    (room_priority_mscs "!r" ["abc"] ⟨[], none, none⟩).world = ⟨[], none, none⟩ :=
  (C7_priority_parse_and_store "!r" ⟨[], none, none⟩ ["abc"] "abc" (by decide) (by decide)
    (by decide)).1

/-- C8: the branch of reply_news for titles of the form "MSC <num>: ..."
cuts only len("MSC" + num) characters, one too few, so issue 123 titled
"MSC 123: Foo" is displayed as "3: Foo", not "Foo" (the space-free form
"MSC123: Foo" is stripped correctly). -/
theorem C8_spaced_msc_title_stripped_wrong :
    news_display_title 123 "MSC 123: Foo" = "3: Foo"
    ∧ news_display_title 123 "MSC123: Foo" = "Foo"
    ∧ news_display_title 123 "MSC 123: Foo" ≠ "Foo" :=
  ⟨rfl, rfl, by decide⟩


/-- lastMatch with a nonempty accumulator: the accumulator only matters
when no event of the list matches. -/
lemma foldl_lastMatch_acc (p : LabelEvent → Bool) (evs : List LabelEvent)
    (acc : Option LabelEvent) :
    evs.foldl (fun a e => if p e then some e else a) acc
      = match lastMatch p evs with | some x => some x | none => acc := by
  induction evs generalizing acc with
  | nil => rfl
  | cons e evs ih =>
    show evs.foldl _ (if p e then some e else acc) = _
    rw [ih]
    have h2 : lastMatch p (e :: evs)
        = match lastMatch p evs with | some x => some x | none => if p e then some e else none := by
      show evs.foldl _ (if p e then some e else none) = _
      rw [ih]
    rw [h2]
    cases lastMatch p evs with
    | some x => rfl
    | none => cases hp : p e <;> simp [hp]

/-- Unfolding lastMatch over a cons cell. -/
lemma lastMatch_cons (p : LabelEvent → Bool) (e : LabelEvent) (evs : List LabelEvent) :
    lastMatch p (e :: evs)
      = match lastMatch p evs with | some x => some x | none => if p e then some e else none := by
  show evs.foldl _ (if p e then some e else none) = _
  rw [foldl_lastMatch_acc]

/-- When lastMatch finds nothing, no event matches. -/
lemma lastMatch_none (p : LabelEvent → Bool) (evs : List LabelEvent)
    (h : lastMatch p evs = none) : ∀ e ∈ evs, p e = false := by
  induction evs with
  | nil => intro e he; simp at he
  | cons a evs ih =>
    rw [lastMatch_cons] at h
    cases hm : lastMatch p evs with
    | some x => rw [hm] at h; simp at h
    | none =>
      rw [hm] at h
      cases hp : p a with
      | true => rw [hp] at h; simp at h
      | false =>
        intro e he
        rcases List.mem_cons.mp he with rfl | her
        · exact hp
        · exact ih hm e her

/-- What lastMatch returns is a matching member of the list. -/
lemma lastMatch_mem_prop (p : LabelEvent → Bool) (evs : List LabelEvent) :
    ∀ e0, lastMatch p evs = some e0 → e0 ∈ evs ∧ p e0 = true := by
  induction evs with
  | nil => intro e0 h; simp [lastMatch] at h
  | cons a evs ih =>
    intro e0 h
    rw [lastMatch_cons] at h
    cases hm : lastMatch p evs with
    | some x =>
      rw [hm] at h
      cases h
      obtain ⟨hx, hpx⟩ := ih e0 hm
      exact ⟨List.mem_cons_of_mem a hx, hpx⟩
    | none =>
      rw [hm] at h
      cases hp : p a with
      | true => rw [hp] at h; simp at h; subst h; exact ⟨List.mem_cons_self a evs, hp⟩
      | false => rw [hp] at h; simp at h

/-- On a strictly chronological timeline, lastMatch returns the matching
event with the greatest timestamp. -/
lemma lastMatch_maximal (p : LabelEvent → Bool) (evs : List LabelEvent)
    (hs : evs.Pairwise (fun a b => a.created_at < b.created_at)) :
    ∀ e0, lastMatch p evs = some e0 → ∀ e ∈ evs, p e = true → e.created_at ≤ e0.created_at := by
  induction evs with
  | nil => intro e0 h; simp [lastMatch] at h
  | cons a evs ih =>
    have ha := (List.pairwise_cons.mp hs).1
    have hs2 := (List.pairwise_cons.mp hs).2
    intro e0 h0 e he hpe
    rw [lastMatch_cons] at h0
    cases hm : lastMatch p evs with
    | some x =>
      rw [hm] at h0
      cases h0
      rcases List.mem_cons.mp he with rfl | her
      · exact le_of_lt (ha e0 (lastMatch_mem_prop p evs e0 hm).1)
      · exact ih hs2 e0 hm e her hpe
    | none =>
      rw [hm] at h0
      cases hp : p a with
      | true =>
        rw [hp] at h0
        simp at h0
        subst h0
        rcases List.mem_cons.mp he with rfl | her
        · exact le_refl _
        · exact absurd hpe (by simp [lastMatch_none p evs hm e her])
      | false => rw [hp] at h0; simp at h0

/-- The per-issue slot after the event loop of get_label_events holds
exactly the state of the last in-window watched labeled event, and is the
prior slot when no event qualifies. -/
lemma fold_lookup (watched : List String) (f t : Int) (i : Issue) (evs : List LabelEvent)
    (d : List (Int × IssueState)) (ls : List String) :
    List.lookup i.number (evs.foldl (label_event_step watched f t i) (d, ls)).1
      = match lastMatch (inWindow watched f t) evs with
        | some e => some ⟨i, dateOf e.created_at, e.label⟩
        | none => List.lookup i.number d := by
  induction evs generalizing d ls with
  | nil => rfl
  | cons e evs ih =>
    rw [lastMatch_cons]
    show List.lookup i.number (evs.foldl _ (label_event_step watched f t i (d, ls) e)).1 = _
    cases hlab : (e.event == "labeled") with
    | false =>
      have hstep : label_event_step watched f t i (d, ls) e = (d, ls) := by
        simp [label_event_step, hlab]
      have hp : inWindow watched f t e = false := by
        simp [inWindow, hlab]
      rw [hstep, ih, hp]
      cases lastMatch (inWindow watched f t) evs <;> rfl
    | true =>
      cases hwl : watched.contains e.label with
      | false =>
        have hwl2 : e.label ∉ watched := by simpa using hwl
        have hstep : label_event_step watched f t i (d, ls) e = (d, ls) := by
          simp [label_event_step, hlab, hwl2]
        have hp : inWindow watched f t e = false := by
          simp [inWindow, hwl2]
        rw [hstep, ih, hp]
        cases lastMatch (inWindow watched f t) evs <;> rfl
      | true =>
        cases hwin : (decide (e.created_at < f) || decide (t ≤ e.created_at)) with
        | true =>
          have hstep : label_event_step watched f t i (d, ls) e
              = (d, if ls.contains e.label then ls else ls ++ [e.label]) := by
            simp only [label_event_step, hlab, hwl, Bool.not_true, Bool.false_eq_true,
              if_false, if_true]
            rw [if_pos]
            simp only [Bool.or_eq_true, decide_eq_true_eq] at hwin ⊢
            exact hwin
          have hp : inWindow watched f t e = false := by
            simp only [Bool.or_eq_true, decide_eq_true_eq] at hwin
            rcases hwin with h1 | h2
            · simp [inWindow, show ¬(f ≤ e.created_at) from not_le.mpr h1]
            · simp [inWindow, show ¬(e.created_at < t) from not_lt.mpr h2]
          rw [hstep, ih, hp]
          cases lastMatch (inWindow watched f t) evs <;> rfl
        | false =>
          have hwin2 : ¬(e.created_at < f ∨ t ≤ e.created_at) := by
            simp only [Bool.or_eq_false_iff, decide_eq_false_iff_not] at hwin
            rintro (h1 | h2)
            · exact hwin.1 h1
            · exact hwin.2 h2
          have hstep : label_event_step watched f t i (d, ls) e
              = (assocSet d i.number ⟨i, dateOf e.created_at, e.label⟩,
                  if ls.contains e.label then ls else ls ++ [e.label]) := by
            simp only [label_event_step, hlab, hwl, Bool.not_true, Bool.false_eq_true,
              if_false, if_true]
            rw [if_neg]
            simp only [Bool.or_eq_true, decide_eq_true_eq]
            exact hwin2
          have hp : inWindow watched f t e = true := by
            have hwl2 : e.label ∈ watched := by simpa using hwl
            have h1 : f ≤ e.created_at := not_lt.mp (fun h => hwin2 (Or.inl h))
            have h2 : e.created_at < t := not_le.mp (fun h => hwin2 (Or.inr h))
            simp [inWindow, hlab, hwl2, h1, h2]
          rw [hstep, ih, hp]
          cases lastMatch (inWindow watched f t) evs with
          | some x => rfl
          | none =>
            simp only [if_true]
            exact lookup_assocSet_self d i.number ⟨i, dateOf e.created_at, e.label⟩

/-- A step of the event loop either keeps the state dictionary or assigns
under the number of the processed issue. -/
lemma label_event_step_fst (watched : List String) (f t : Int) (i2 : Issue)
    (acc : List (Int × IssueState) × List String) (e : LabelEvent) :
    (label_event_step watched f t i2 acc e).1 = acc.1
    ∨ ∃ v, (label_event_step watched f t i2 acc e).1 = assocSet acc.1 i2.number v := by
  simp only [label_event_step]
  split
  · exact Or.inl rfl
  · split
    · exact Or.inl rfl
    · split
      · exact Or.inl rfl
      · exact Or.inr ⟨_, rfl⟩

/-- The event loop of one issue never touches the slot of a different
issue number. -/
lemma lookup_event_fold_other (watched : List String) (f t : Int) (i2 : Issue)
    (num : Int) (h : i2.number ≠ num) (evs : List LabelEvent) :
    ∀ (d : List (Int × IssueState)) (ls : List String),
      List.lookup num (evs.foldl (label_event_step watched f t i2) (d, ls)).1
        = List.lookup num d := by
  induction evs with
  | nil => intro d ls; rfl
  | cons e evs ih =>
    intro d ls
    show List.lookup num (evs.foldl _ (label_event_step watched f t i2 (d, ls) e)).1 = _
    have hstep := label_event_step_fst watched f t i2 (d, ls) e
    obtain ⟨⟨d2, ls2⟩, hsp⟩ : ∃ p : List (Int × IssueState) × List String,
        label_event_step watched f t i2 (d, ls) e = p := ⟨_, rfl⟩
    rw [hsp, ih d2 ls2]
    rw [hsp] at hstep
    rcases hstep with h1 | ⟨v, h2⟩
    · rw [show d2 = d from h1]
    · rw [show d2 = assocSet d i2.number v from h2,
        lookup_assocSet_ne d i2.number v num (Ne.symm h)]

/-- process_issue_events of a different issue leaves a slot unchanged. -/
lemma lookup_process_other (watched : List String) (f t : Int) (i2 : Issue)
    (st : List (Int × IssueState)) (num : Int) (h : i2.number ≠ num) :
    List.lookup num (process_issue_events watched f t i2 st) = List.lookup num st :=
  lookup_event_fold_other watched f t i2 num h i2.events st []

/-- A run of process_issue_events over issues of other numbers leaves a
slot unchanged. -/
lemma lookup_issues_fold_other (watched : List String) (f t : Int) (lst : List Issue)
    (num : Int) (h : ∀ j ∈ lst, j.number ≠ num) :
    ∀ st, List.lookup num
        (lst.foldl (fun st i2 => process_issue_events watched f t i2 st) st)
      = List.lookup num st := by
  induction lst with
  | nil => intro st; rfl
  | cons j lst ih =>
    intro st
    show List.lookup num (lst.foldl _ (process_issue_events watched f t j st)) = _
    rw [ih (fun j2 hj2 => h j2 (List.mem_cons_of_mem j hj2)),
      lookup_process_other watched f t j st num (h j (List.mem_cons_self j lst))]

/-- C6: the digest retains, per issue of the fetched list (issue numbers
pairwise distinct), exactly the last in-window watched labeled event of
that issue's timeline (first conjunct, with inWindow spelling out the
half-open window date_from ≤ ts < date_to); on a strictly chronological
timeline that retained event is the most recent qualifying one (second
conjunct); and at the boundaries, an event timestamped exactly at
date_to is excluded while one exactly at date_from is included (third
conjunct). -/
theorem C6_window_most_recent_event (watched : List String) (f t : Int) (i : Issue)
    (hft : f < t)
    (hsorted : i.events.Pairwise (fun a b => a.created_at < b.created_at)) :
    (∀ issues : List Issue, i ∈ issues →
      issues.Pairwise (fun a b => a.number ≠ b.number) →
      List.lookup i.number (get_label_events watched issues f t)
        = match lastMatch (inWindow watched f t) i.events with
          | some e => some ⟨i, dateOf e.created_at, e.label⟩
          | none => none)
    ∧ (∀ e0, lastMatch (inWindow watched f t) i.events = some e0 →
        e0 ∈ i.events ∧ inWindow watched f t e0 = true
        ∧ ∀ e ∈ i.events, inWindow watched f t e = true → e.created_at ≤ e0.created_at)
    ∧ (∀ (e : LabelEvent) (j : Issue), j.events = [e] → (e.event == "labeled") = true →
        watched.contains e.label = true →
        (e.created_at = t → List.lookup j.number (get_label_events watched [j] f t) = none)
        ∧ (e.created_at = f →
            List.lookup j.number (get_label_events watched [j] f t)
              = some ⟨j, dateOf f, e.label⟩)) := by
  refine ⟨?_, ?_, ?_⟩
  · intro issues hi hnum
    obtain ⟨pre, post, rfl⟩ := List.append_of_mem hi
    have hpair := List.pairwise_append.mp hnum
    have hpost : ∀ j ∈ post, j.number ≠ i.number :=
      fun j hj => Ne.symm ((List.pairwise_cons.mp hpair.2.1).1 j hj)
    have hpre : ∀ j ∈ pre, j.number ≠ i.number :=
      fun j hj => hpair.2.2 j hj i (List.mem_cons_self i post)
    show List.lookup i.number
        ((pre ++ i :: post).foldl (fun st i2 => process_issue_events watched f t i2 st) []) = _
    rw [List.foldl_append]
    show List.lookup i.number
        (post.foldl _ (process_issue_events watched f t i
          (pre.foldl (fun st i2 => process_issue_events watched f t i2 st) []))) = _
    rw [lookup_issues_fold_other watched f t post i.number hpost]
    show List.lookup i.number
        ((i.events.foldl (label_event_step watched f t i)
          (pre.foldl (fun st i2 => process_issue_events watched f t i2 st) [], [])).1) = _
    rw [fold_lookup]
    rw [lookup_issues_fold_other watched f t pre i.number hpre]
    cases lastMatch (inWindow watched f t) i.events <;> rfl
  · intro e0 h0
    obtain ⟨hm, hp⟩ := lastMatch_mem_prop (inWindow watched f t) i.events e0 h0
    exact ⟨hm, hp, lastMatch_maximal (inWindow watched f t) i.events hsorted e0 h0⟩
  · intro e j hj hlab hwl
    constructor
    · intro het
      show List.lookup j.number ((j.events.foldl (label_event_step watched f t j) ([], [])).1)
        = none
      rw [hj]
      have hwin : (decide (e.created_at < f) || decide (t ≤ e.created_at)) = true := by
        subst het
        simp
      show List.lookup j.number (label_event_step watched f t j ([], []) e).1 = none
      simp only [label_event_step, hlab, hwl, Bool.not_true, Bool.false_eq_true, if_false,
        if_true]
      rw [if_pos (by simpa using hwin)]
      rfl
    · intro hef
      show List.lookup j.number ((j.events.foldl (label_event_step watched f t j) ([], [])).1)
        = some ⟨j, dateOf f, e.label⟩
      rw [hj]
      have hw1 : ¬(e.created_at < f) := by
        rw [hef]
        exact lt_irrefl f
      have hw2 : ¬(t ≤ e.created_at) := by
        rw [hef]
        exact not_le.mpr hft
      show List.lookup j.number (label_event_step watched f t j ([], []) e).1
        = some ⟨j, dateOf f, e.label⟩
      simp only [label_event_step, hlab, hwl, Bool.not_true, Bool.false_eq_true, if_false,
        if_true]
      rw [if_neg (by simp [hw1, hw2])]
      subst hef
      simp [assocSet, List.lookup]

/-- The concrete issue of the C6 witness: three watched labeled events at
times 0, 5 and 10. -/
def c6_issue : Issue :=
  ⟨7, "t", "u", [], [],
    [⟨"labeled", "final-comment-period", 0⟩, ⟨"labeled", "final-comment-period", 5⟩,
      ⟨"labeled", "final-comment-period", 10⟩]⟩

/-- C6 witness: over the window [0, 10) the digest keeps the event at time
5 for the concrete issue — the event at 10 is excluded by the half-open
window, the one at 0 is included but overwritten. -/
theorem C6_window_witness :
    List.lookup c6_issue.number (get_label_events ["final-comment-period"] [c6_issue] 0 10)
      = some ⟨c6_issue, 0, "final-comment-period"⟩ := by
  have h := (C6_window_most_recent_event ["final-comment-period"] 0 10 c6_issue
    (by decide) (by decide)).1 [c6_issue] (by decide) (by decide)
  exact h.trans (by rfl)

/-- The review-attachment fold of get_mscs only ever holds a record whose
issue number matches the entry's issue number. -/
lemma fold_fcp_number (num : Int) (l : List FcpInfo) (acc : Option FcpInfo)
    (hacc : ∀ g, acc = some g → g.issue_number = num) :
    ∀ g, l.foldl (fun a f => if num == f.issue_number then some f else a) acc = some g →
      g.issue_number = num := by
  induction l generalizing acc with
  | nil => exact hacc
  | cons f rest ih =>
    intro g hg
    refine ih _ ?_ g hg
    intro g2 hg2
    by_cases h : num == f.issue_number
    · simp only [h, if_true] at hg2
      cases hg2
      exact (eq_of_beq h).symm
    · simp only [h] at hg2
      simp only [Bool.false_eq_true, if_false] at hg2
      exact hacc g2 hg2

/-- C9: in every status list produced by get_mscs, an entry carries a
review record only if its labels contain proposed-final-comment-period, and
any attached record's issue number equals the entry's own issue number. -/
theorem C9_review_attachment_invariant (room_id : Option String) (mem : DataMap)
    (repo_issues : List Issue) (fcp_info : List FcpInfo) (e : MscEntry)
    (he : e ∈ get_mscs room_id mem repo_issues fcp_info) (f : FcpInfo) (hf : e.fcp = some f) :
    e.labels.contains "proposed-final-comment-period" = true
    ∧ f.issue_number = e.issue.number := by
  simp only [get_mscs, List.mem_map] at he
  obtain ⟨e0, he0, hlink⟩ := he
  obtain ⟨i, hi, rfl⟩ := he0
  by_cases hl : (⟨i, i.labels, none⟩ : MscEntry).labels.contains "proposed-final-comment-period"
  · rw [if_pos hl] at hlink
    subst hlink
    refine ⟨hl, ?_⟩
    exact fold_fcp_number i.number fcp_info none (by intro g hg; cases hg) f hf
  · rw [if_neg hl] at hlink
    subst hlink
    exact absurd hf (by simp)

/-- The concrete issue of the C9 witness. -/
def c9_issue : Issue := ⟨7, "t", "u", ["proposal", "proposed-final-comment-period"], [], []⟩

/-- The concrete review record of the C9 witness. -/
def c9_record : FcpInfo := ⟨7, "merge", [("alice", false)]⟩

/-- The entry get_mscs builds for c9_issue with c9_record attached. -/
def c9_entry : MscEntry := ⟨c9_issue, c9_issue.labels, some c9_record⟩

/-- C9 witness: the aggregated entry of the concrete issue carries the
proposed-final-comment-period label and its record's number matches. -/
theorem C9_review_attachment_witness :
    c9_entry.labels.contains "proposed-final-comment-period" = true
    ∧ c9_record.issue_number = c9_entry.issue.number :=
  C9_review_attachment_invariant (some "!r") [] [c9_issue] [c9_record] c9_entry
    (by decide) c9_record (by decide)

/-- lookup_dataUpdateRoom_self for a room other than the updated one. -/
lemma lookup_dataUpdateRoom_ne (m : DataMap) (room : String) (upd : RoomDict) (room2 : String)
    (h : room2 ≠ room) :
    List.lookup room2 (dataUpdateRoom m room upd) = List.lookup room2 m := by
  have hb : (room2 == room) = false := beq_eq_false_iff_ne.mpr h
  induction m with
  | nil => simp [dataUpdateRoom, List.lookup, hb]
  | cons p rest ih =>
    obtain ⟨a, d⟩ := p
    by_cases ha : a = room
    · subst ha
      simp [dataUpdateRoom, List.lookup, hb]
    · have hab : (a == room) = false := beq_eq_false_iff_ne.mpr ha
      simp [dataUpdateRoom, hab, List.lookup, ih]

/-- Reading any room and key after a single-key update_room_setting: the
written cell holds the new value, every other cell is unchanged. -/
lemma get_update_single (w : World) (room k : String) (v : SettingValue) (room2 k2 : String) :
    get_room_setting (update_room_setting room [(k, v)] w).mem room2 k2
      = if room2 = room ∧ k2 = k then some v else get_room_setting w.mem room2 k2 := by
  by_cases hr : room2 = room
  · subst hr
    by_cases hk : k2 = k
    · subst hk
      simp [get_update_self]
    · show get_room_setting (dataUpdateRoom w.mem room2 [(k, v)]) room2 k2 = _
      rw [get_room_setting, lookup_dataUpdateRoom_self]
      simp only [hk, and_false, if_false]
      cases hd : List.lookup room2 w.mem with
      | none =>
        simp [List.lookup, beq_eq_false_iff_ne.mpr hk, get_room_setting, hd]
      | some d =>
        show List.lookup k2 (dictUpdate d [(k, v)]) = _
        show List.lookup k2 (assocSet d k v) = _
        rw [lookup_assocSet_ne d k v k2 hk]
        simp [get_room_setting, hd]
  · show get_room_setting (dataUpdateRoom w.mem room [(k, v)]) room2 k2 = _
    rw [get_room_setting, lookup_dataUpdateRoom_ne w.mem room [(k, v)] room2 hr]
    simp [hr, get_room_setting]

/-- The C10 invariant: every stored summary_content value is one of the
allowed mode strings. -/
def content_ok (w : World) : Prop :=
  ∀ room v, get_room_setting w.mem room "summary_content" = some v →
    ∃ s, v = SettingValue.str s ∧ s ∈ summary_content_allowed

/-- One room_summary_content call preserves the summary-content invariant. -/
lemma content_step (w : World) (room : String) (args : List String) (hw : content_ok w) :
    content_ok (room_summary_content room args w).world := by
  cases args with
  | nil => exact hw
  | cons a rest =>
    by_cases hc : summary_content_allowed.contains a
    · simp only [room_summary_content, hc, if_true]
      intro room2 v hget
      rw [get_update_single] at hget
      by_cases hh : room2 = room ∧ "summary_content" = "summary_content"
      · rw [if_pos hh] at hget
        cases hget
        exact ⟨a, rfl, by simpa using hc⟩
      · rw [if_neg hh] at hget
        exact hw room2 v hget
    · simp only [room_summary_content, hc, Bool.false_eq_true, if_false]
      exact hw

/-- C10: any sequence of set-summary-content calls keeps every stored
summary_content value inside the allowed set (first conjunct); a call whose
argument list is empty or whose first token is outside the set replies with
the usage message and leaves the settings world, memory and disk, exactly
as it was (second conjunct). -/
theorem C10_summary_content_invariant (w : World) (hw : content_ok w)
    (calls : List (String × List String)) :
    content_ok (calls.foldl (fun st c => (room_summary_content c.1 c.2 st).world) w)
    ∧ (∀ (room : String) (args : List String),
        args.head?.all (fun a => !summary_content_allowed.contains a) = true →
        room_summary_content room args w = ⟨w, summary_content_usage⟩) := by
  constructor
  · induction calls generalizing w with
    | nil => exact hw
    | cons c cs ih => exact ih _ (content_step w c.1 c.2 hw)
  · intro room args h
    cases args with
    | nil => rfl
    | cons a rest =>
      simp only [List.head?, Option.all_some, Bool.not_eq_true'] at h
      simp only [room_summary_content, h, Bool.false_eq_true, if_false]

/-- C10 witness: on the empty settings world the rejected token bogus
leaves everything unchanged and yields the usage reply. -/
theorem C10_summary_content_witness :
    room_summary_content "!r" ["bogus"] ⟨[], none, none⟩
      = ⟨⟨[], none, none⟩, summary_content_usage⟩ :=
  (C10_summary_content_invariant ⟨[], none, none⟩
    (by intro room v h; simp [get_room_setting, List.lookup] at h) []).2 "!r" ["bogus"]
    (by decide)

end MSCBot

